import Mathlib

/-
  Verification development for the angular-data core of `src/milkyway.py`
  (Milky Way warp analysis dashboard).

  Real-valued quantities in the source (pandas/numpy floats) are embedded
  as rationals `ℚ`; rounding of IEEE doubles is not modelled except where a
  claim is specifically about IEEE special values (infinities / NaN), for
  which a dedicated extended type `QF` is used.  Data frames are embedded
  as lists of row structures; a column added by an elementwise pandas
  expression becomes a `List.map`.
-/

namespace Milkyway

/-- Python floor-mod by 360 (`x % 360` in numpy/pandas on floats follows the
sign of the divisor, i.e. the result lies in `[0, 360)` for finite inputs). -/
def qmod360 (x : ℚ) : ℚ := x - 360 * ⌊x / 360⌋

/-- Elementwise kernel of `adjust_amplitude_phase(df, amp_col, phase_col)`
(src/milkyway.py lines 45-60).  The source mutates two columns:
`df[phase_col] = np.where(df[amp_col] < 0, df[phase_col] + 180, df[phase_col])`,
`df[amp_col] = np.abs(df[amp_col])`, `df[phase_col] = df[phase_col] % 360`.
All three statements act elementwise on each row, so per row with amplitude
`A` and phase `C` the effect is exactly this function. -/
def adjust_amplitude_phase (A C : ℚ) : ℚ × ℚ :=
  let C1 := if A < 0 then C + 180 else C
  let A1 := |A|
  (A1, qmod360 C1)

/-- `adjust_phase_differencehv(diff)` (src/milkyway.py lines 176-188):
maps a raw phase difference into `[-180, 180]` with a single conditional
correction. -/
def adjust_phase_differencehv (diff : ℚ) : ℚ :=
  if diff > 180 then diff - 360
  else if diff < -180 then diff + 360
  else diff

/-- A row of the fitted-parameter table `two_pos_df` as consumed by the
phase-difference functions: radius `R`, time `t`, and the two phase-shift
columns.  Other columns are irrelevant to these computations. -/
structure Row where
  R : ℚ
  t : ℚ
  C_height : ℚ
  C_velocity : ℚ
deriving DecidableEq, Repr

/-- Comparison used to model `sort_values(by='t')`: ascending by `t`.
The pandas sort returns some ascending-by-`t` arrangement; we model it with
a stable insertion sort (the claims only concern the ascending order and
the multiset of rows, both of which are sort-algorithm independent). -/
def tle (a b : Row) : Prop := a.t ≤ b.t

instance : DecidableRel tle := fun a b => inferInstanceAs (Decidable (a.t ≤ b.t))

instance : IsTotal Row tle := ⟨fun a b => le_total a.t b.t⟩

instance : IsTrans Row tle := ⟨fun _ _ _ h h2 => le_trans h h2⟩

/-- `calculate_phase_difference(combined_params_df, selected_R)`
(src/milkyway.py lines 161-198): filter the table to rows with
`R == selected_R`, sort by `t`, compute `C_height - C_velocity`, and apply
`adjust_phase_differencehv` to that column.  The new `Phase_Difference`
column is modelled as the second component of each output pair. -/
def calculate_phase_difference (combined_params_df : List Row) (selected_R : ℚ) :
    List (Row × ℚ) :=
  let filtered := combined_params_df.filter (fun r => r.R = selected_R)
  let sorted := filtered.insertionSort tle
  sorted.map (fun r => (r, adjust_phase_differencehv (r.C_height - r.C_velocity)))

/-- First while loop of `adjust_value` (src/milkyway.py lines 776-777):
`while value < start_interval: value += 360`.  Terminates because each
iteration strictly decreases `⌈(start - value) / 360⌉`, which is positive
while the guard holds. -/
def addUp (start : ℚ) (value : ℚ) : ℚ :=
  if value < start then addUp start (value + 360) else value
termination_by (⌈(start - value) / 360⌉).toNat
decreasing_by
  have h1 : (0 : ℚ) < start - value := by linarith
  have h3 : (1 : ℤ) ≤ ⌈(start - value) / 360⌉ := by
    have hp := Int.ceil_pos.mpr (show (0 : ℚ) < (start - value) / 360 by positivity)
    omega
  have h4 : start - (value + 360) = (start - value) - 360 := by ring
  have h5 : ⌈(start - (value + 360)) / 360⌉ = ⌈(start - value) / 360⌉ - 1 := by
    rw [h4, sub_div, div_self (by norm_num : (360 : ℚ) ≠ 0), Int.ceil_sub_one]
  omega

/-- Second while loop of `adjust_value` (src/milkyway.py lines 778-779):
`while value > end_interval: value -= 360`.  Terminates because each
iteration strictly decreases `⌈(value - stop) / 360⌉`. -/
def subDown (stop : ℚ) (value : ℚ) : ℚ :=
  if value > stop then subDown stop (value - 360) else value
termination_by (⌈(value - stop) / 360⌉).toNat
decreasing_by
  have h1 : (0 : ℚ) < value - stop := by linarith
  have h3 : (1 : ℤ) ≤ ⌈(value - stop) / 360⌉ := by
    have hp := Int.ceil_pos.mpr (show (0 : ℚ) < (value - stop) / 360 by positivity)
    omega
  have h4 : (value - 360) - stop = (value - stop) - 360 := by ring
  have h5 : ⌈((value - 360) - stop) / 360⌉ = ⌈(value - stop) / 360⌉ - 1 := by
    rw [h4, sub_div, div_self (by norm_num : (360 : ℚ) ≠ 0), Int.ceil_sub_one]
  omega

/-- `adjust_value(value)` inside `adjust_phase_interval`
(src/milkyway.py lines 768-780): add 360 while below `start_interval`,
subtract 360 while above `end_interval`, then return the value if it lies
in `[start_interval, end_interval]` and `None` otherwise.  There is no
degenerate-window check in the source; the function is total for every
finite input and every window. -/
def adjust_value (value start_interval end_interval : ℚ) : Option ℚ :=
  let v1 := addUp start_interval value
  let v2 := subDown end_interval v1
  if start_interval ≤ v2 ∧ v2 ≤ end_interval then some v2 else none

/-- The metric selected by the user in tab 6 (`'height'` or `'velocity'`);
it picks which phase-shift column `C_{metric}` is differenced. -/
inductive Metric where
  | height : Metric
  | velocity : Metric
deriving DecidableEq, Repr

/-- The column `C_{metric}` of a row. -/
def getC (m : Metric) (r : Row) : ℚ :=
  match m with
  | .height => r.C_height
  | .velocity => r.C_velocity

/-- One row of the data frame that `calculate_differences` returns
(src/milkyway.py lines 716-751).  `pd.concat` over the per-pair frames
aligns them on the union of their columns, padding the columns that a row
does not have with NaN; we model each cell of a difference column as an
`Option ℚ` with `none` standing for NaN.  The `t` column is always
present. -/
structure DiffRow where
  t : ℚ
  vals : List (Option ℚ)
deriving DecidableEq, Repr

/-- The data frame returned by `calculate_differences`: the list of
difference-column labels (one per consecutive radius pair that was not
skipped) and the concatenated rows. -/
structure DiffTable where
  pairs : List (ℚ × ℚ)
  rows : List DiffRow
deriving DecidableEq, Repr

/-- A cell of value `v` in difference column `i` out of `k` columns: NaN
everywhere except position `i`, exactly as `pd.concat` pads it. -/
def padRow (k i : ℕ) (t v : ℚ) : DiffRow :=
  ⟨t, (List.range k).map (fun j => if j = i then some v else none)⟩

/-- The consecutive pairs `(selected[i], selected[i+1])` of the loop
`for i in range(len(selected_r_values) - 1)` in `calculate_differences`,
restricted to the pairs the loop does not `continue` past (a pair is
skipped when either radius matches no row of the table). -/
def pairsOf (df : List Row) (selected_r_values : List ℚ) : List (ℚ × ℚ) :=
  (selected_r_values.zip selected_r_values.tail).filter (fun p =>
    !(df.filter (fun r => r.R = p.1)).isEmpty
      && !(df.filter (fun r => r.R = p.2)).isEmpty)

/-- The merged rows one radius pair `(r1, r2)` contributes to
`calculate_differences`: the inner join of the `R == r1` rows with the
`R == r2` rows on exact `t` equality (modelled as the left-nested-loop
join `pd.merge` performs, preserving left-row order), each row recording
`C_metric(r1, t) - C_metric(r2, t)` in difference column `i` of `k`. -/
def pairRows (df : List Row) (metric : Metric) (k i : ℕ) (r1 r2 : ℚ) :
    List DiffRow :=
  (df.filter (fun r => r.R = r1)).flatMap (fun a =>
    ((df.filter (fun r => r.R = r2)).filter (fun b => b.t = a.t)).map (fun b =>
      padRow k i a.t (getC metric a - getC metric b)))

/-- `calculate_differences(df, selected_r_values, metric)`
(src/milkyway.py lines 716-751).  For each consecutive pair of the
selected radii it joins the two radius slices on `t` and records the
difference of the `C_{metric}` values in a fresh per-pair column; the
per-pair frames are then concatenated (`pd.concat`, which pads each row
with NaN in every other pair's difference column — the `padRow` cells). -/
def calculate_differences (df : List Row) (selected_r_values : List ℚ)
    (metric : Metric) : DiffTable :=
  let ps := pairsOf df selected_r_values
  ⟨ps, ps.enum.flatMap (fun pi =>
    pairRows df metric ps.length pi.1 pi.2.1 pi.2.2)⟩

/-- `adjust_phase_interval(diff_df, start_interval, end_interval)`
(src/milkyway.py lines 754-786): apply `adjust_value` to every cell of
every difference column (a NaN cell maps to `None`, since every comparison
against NaN is false, which is exactly what `none.bind` below does for the
`none` cells), then `dropna()`: keep only the rows in which every cell is
present. -/
def adjust_phase_interval (diff_df : DiffTable)
    (start_interval end_interval : ℚ) : DiffTable :=
  let adjusted := diff_df.rows.map (fun row =>
    DiffRow.mk row.t (row.vals.map (fun c =>
      c.bind (fun v => adjust_value v start_interval end_interval))))
  ⟨diff_df.pairs, adjusted.filter (fun row => row.vals.all Option.isSome)⟩

/-- Extended rational mirroring the IEEE-754 double values that the
`Omega_Warp` column computation can produce: finite values, the two
infinities, and NaN.  Signed zero is not distinguished (all finite inputs
here are exact decimals and no computation below depends on it). -/
inductive QF where
  | fin (q : ℚ) : QF
  | pinf : QF
  | ninf : QF
  | nan : QF
deriving DecidableEq, Repr

/-- IEEE-754 division as numpy/pandas performs it elementwise, restricted
to `QF`: division by zero yields an infinity of the appropriate sign (NaN
for 0/0), infinities divided by finite values keep their sign (a negative
finite divisor flips it), finite over infinite is zero, inf/inf is NaN. -/
def QF.div : QF → QF → QF
  | .nan, _ => .nan
  | _, .nan => .nan
  | .fin a, .fin b =>
    if b = 0 then (if a = 0 then .nan else if 0 < a then .pinf else .ninf)
    else .fin (a / b)
  | .fin _, .pinf => .fin 0
  | .fin _, .ninf => .fin 0
  | .pinf, .fin b => if 0 ≤ b then .pinf else .ninf
  | .ninf, .fin b => if 0 ≤ b then .ninf else .pinf
  | .pinf, .pinf => .nan
  | .pinf, .ninf => .nan
  | .ninf, .pinf => .nan
  | .ninf, .ninf => .nan

/-- IEEE-754 subtraction restricted to `QF`: NaN propagates, an infinity
dominates a finite operand, and same-signed infinities subtract to NaN. -/
def QF.sub : QF → QF → QF
  | .nan, _ => .nan
  | _, .nan => .nan
  | .fin a, .fin b => .fin (a - b)
  | .fin _, .pinf => .ninf
  | .fin _, .ninf => .pinf
  | .pinf, .fin _ => .pinf
  | .ninf, .fin _ => .ninf
  | .pinf, .pinf => .nan
  | .pinf, .ninf => .pinf
  | .ninf, .pinf => .ninf
  | .ninf, .ninf => .nan

/-- The `Omega_Warp` expression of src/milkyway.py line 346:
`(230 / R) - (A_velocity / A_height)`, evaluated elementwise per row with
IEEE float semantics (pandas raises no error on division by zero; it
produces an infinity or NaN). -/
def Omega_Warp (R A_velocity A_height : QF) : QF :=
  QF.sub (QF.div (.fin 230) R) (QF.div A_velocity A_height)

/-- A row of `two_pos_df` as consumed by the `Omega_Warp` computation:
radius, time, and the two (already normalized) amplitude columns. -/
structure ORow where
  R : ℚ
  t : ℚ
  A_height : ℚ
  A_velocity : ℚ
deriving DecidableEq, Repr

/-- The assignment `two_pos_df['Omega_Warp'] = (230 / two_pos_df['R']) -
(two_pos_df['A_velocity'] / two_pos_df['A_height'])` (src/milkyway.py
line 346): an elementwise column computation that appends an `Omega_Warp`
value to every row independently. -/
def addOmega (df : List ORow) : List (ORow × QF) :=
  df.map (fun r =>
    (r, Omega_Warp (.fin r.R) (.fin r.A_velocity) (.fin r.A_height)))

/-- `sine_function(phi, A, C, D)` (src/milkyway.py lines 31-42):
`A * np.sin(np.deg2rad(phi + C)) + D`, where `np.deg2rad(x) = x * pi / 180`. -/
noncomputable def sine_function (phi A C D : ℚ) : ℝ :=
  (A : ℝ) * Real.sin (((phi + C : ℚ) : ℝ) * Real.pi / 180) + (D : ℝ)

/-- Unfold lemma for `addUp` when the loop guard holds. -/
theorem addUp_of_lt {start value : ℚ} (h : value < start) :
    addUp start value = addUp start (value + 360) := by
  rw [addUp]; simp [h]

/-- Unfold lemma for `addUp` when the loop guard fails. -/
theorem addUp_of_ge {start value : ℚ} (h : ¬ value < start) :
    addUp start value = value := by
  rw [addUp]; simp [h]

/-- Unfold lemma for `subDown` when the loop guard holds. -/
theorem subDown_of_gt {stop value : ℚ} (h : value > stop) :
    subDown stop value = subDown stop (value - 360) := by
  rw [subDown]; simp [h]

/-- Unfold lemma for `subDown` when the loop guard fails. -/
theorem subDown_of_le {stop value : ℚ} (h : ¬ value > stop) :
    subDown stop value = value := by
  rw [subDown]; simp [h]

/-- The first loop of `adjust_value` ends at or above the window start,
having added a whole number of turns. -/
theorem addUp_spec (start value : ℚ) :
    start ≤ addUp start value ∧ ∃ k : ℕ, addUp start value = value + 360 * k := by
  by_cases h : value < start
  · rw [addUp_of_lt h]
    obtain ⟨hge, k, hk⟩ := addUp_spec start (value + 360)
    refine ⟨hge, k + 1, ?_⟩
    push_cast at hk ⊢
    linarith
  · rw [addUp_of_ge h]
    exact ⟨not_lt.mp h, 0, by norm_num⟩
termination_by (⌈(start - value) / 360⌉).toNat
decreasing_by
  have h1 : (0 : ℚ) < start - value := by linarith
  have h3 : (1 : ℤ) ≤ ⌈(start - value) / 360⌉ := by
    have hp := Int.ceil_pos.mpr (show (0 : ℚ) < (start - value) / 360 by positivity)
    omega
  have h4 : start - (value + 360) = (start - value) - 360 := by ring
  have h5 : ⌈(start - (value + 360)) / 360⌉ = ⌈(start - value) / 360⌉ - 1 := by
    rw [h4, sub_div, div_self (by norm_num : (360 : ℚ) ≠ 0), Int.ceil_sub_one]
  omega

/-- The second loop of `adjust_value` ends at or below the window end,
having subtracted a whole number of turns. -/
theorem subDown_spec (stop value : ℚ) :
    subDown stop value ≤ stop ∧ ∃ k : ℕ, subDown stop value = value - 360 * k := by
  by_cases h : value > stop
  · rw [subDown_of_gt h]
    obtain ⟨hle, k, hk⟩ := subDown_spec stop (value - 360)
    refine ⟨hle, k + 1, ?_⟩
    push_cast at hk ⊢
    linarith
  · rw [subDown_of_le h]
    exact ⟨not_lt.mp h, 0, by norm_num⟩
termination_by (⌈(value - stop) / 360⌉).toNat
decreasing_by
  have h1 : (0 : ℚ) < value - stop := by linarith
  have h3 : (1 : ℤ) ≤ ⌈(value - stop) / 360⌉ := by
    have hp := Int.ceil_pos.mpr (show (0 : ℚ) < (value - stop) / 360 by positivity)
    omega
  have h4 : (value - 360) - stop = (value - stop) - 360 := by ring
  have h5 : ⌈((value - 360) - stop) / 360⌉ = ⌈(value - stop) / 360⌉ - 1 := by
    rw [h4, sub_div, div_self (by norm_num : (360 : ℚ) ≠ 0), Int.ceil_sub_one]
  omega

/-- `qmod360` never returns a negative value. -/
theorem qmod360_nonneg (x : ℚ) : 0 ≤ qmod360 x := by
  have h := Int.floor_le (x / 360)
  unfold qmod360
  linarith

/-- `qmod360` stays below 360. -/
theorem qmod360_lt (x : ℚ) : qmod360 x < 360 := by
  have h := Int.lt_floor_add_one (x / 360)
  unfold qmod360
  linarith

/-- `qmod360` fixes values already in `[0, 360)`. -/
theorem qmod360_eq_self {x : ℚ} (h0 : 0 ≤ x) (h1 : x < 360) : qmod360 x = x := by
  have hz : ⌊x / 360⌋ = 0 := by
    refine Int.floor_eq_zero_iff.mpr ⟨by positivity, ?_⟩
    rw [div_lt_one (by norm_num : (0 : ℚ) < 360)]
    exact h1
  unfold qmod360
  rw [hz]
  ring

/-- `qmod360` changes its input by a whole number of turns. -/
theorem qmod360_sub_int (x : ℚ) : ∃ k : ℤ, qmod360 x = x - 360 * k :=
  ⟨⌊x / 360⌋, rfl⟩

/-- A raw difference strictly between -360 and 360 lands in `[-180, 180]`
after the single correction of `adjust_phase_differencehv`. -/
theorem adjust_phase_differencehv_bounds {d : ℚ} (h1 : -360 < d) (h2 : d < 360) :
    -180 ≤ adjust_phase_differencehv d ∧ adjust_phase_differencehv d ≤ 180 := by
  unfold adjust_phase_differencehv
  split_ifs with ha hb
  · constructor <;> linarith
  · constructor <;> linarith
  · constructor <;> linarith

/-- C1: for every parameter table and selected radius, the phase-difference
engine outputs exactly the rows with that radius (as a permutation of the
filtered table), ordered ascending by `t`, and each output difference is
`C_height - C_velocity` corrected by subtracting 360 when the raw
difference exceeds 180 and adding 360 when it is below -180, unchanged
otherwise; a raw difference of exactly 180 maps to 180. -/
theorem cross_quantity_phase_difference (df : List Row) (Rsel : ℚ) :
    ((calculate_phase_difference df Rsel).map Prod.fst).Perm
        (df.filter (fun r => r.R = Rsel))
    ∧ (calculate_phase_difference df Rsel).Pairwise (fun p q => p.1.t ≤ q.1.t)
    ∧ (∀ p ∈ calculate_phase_difference df Rsel,
        p.2 = adjust_phase_differencehv (p.1.C_height - p.1.C_velocity))
    ∧ (∀ d : ℚ, 180 < d → adjust_phase_differencehv d = d - 360)
    ∧ (∀ d : ℚ, d < -180 → adjust_phase_differencehv d = d + 360)
    ∧ (∀ d : ℚ, -180 ≤ d → d ≤ 180 → adjust_phase_differencehv d = d)
    ∧ adjust_phase_differencehv 180 = 180 := by
  refine ⟨?_, ?_, ?_, ?_, ?_, ?_, ?_⟩
  · have hmap : (calculate_phase_difference df Rsel).map Prod.fst
        = (df.filter (fun r => r.R = Rsel)).insertionSort tle := by
      simp [calculate_phase_difference, List.map_map, Function.comp_def]
    rw [hmap]
    exact List.perm_insertionSort tle _
  · have hs := List.sorted_insertionSort tle (df.filter (fun r => r.R = Rsel))
    unfold calculate_phase_difference
    rw [List.pairwise_map]
    exact hs
  · intro p hp
    unfold calculate_phase_difference at hp
    simp only [List.mem_map] at hp
    obtain ⟨r, _, rfl⟩ := hp
    rfl
  · intro d hd
    unfold adjust_phase_differencehv
    rw [if_pos hd]
  · intro d hd
    unfold adjust_phase_differencehv
    rw [if_neg (by linarith), if_pos hd]
  · intro d h1 h2
    unfold adjust_phase_differencehv
    rw [if_neg (by linarith), if_neg (by linarith)]
  · norm_num [adjust_phase_differencehv]

/-- C1 witness: the theorem applied at concrete inputs, with each
hypothesis discharged on concrete values. -/
theorem cross_quantity_phase_difference_witness :
    ((⟨5, 0, 10, 20⟩, (-10 : ℚ)) : Row × ℚ).2
        = adjust_phase_differencehv ((10 : ℚ) - 20)
    ∧ adjust_phase_differencehv 200 = 200 - 360
    ∧ adjust_phase_differencehv (-200) = -200 + 360
    ∧ adjust_phase_differencehv 90 = 90 := by
  refine ⟨?_, ?_, ?_, ?_⟩
  · exact (cross_quantity_phase_difference [⟨5, 0, 10, 20⟩] 5).2.2.1
      (⟨5, 0, 10, 20⟩, -10)
      (by norm_num [calculate_phase_difference, List.insertionSort,
        List.orderedInsert, adjust_phase_differencehv, List.filter])
  · exact (cross_quantity_phase_difference [] 0).2.2.2.1 200 (by norm_num)
  · exact (cross_quantity_phase_difference [] 0).2.2.2.2.1 (-200) (by norm_num)
  · exact (cross_quantity_phase_difference [] 0).2.2.2.2.2.1 90
      (by norm_num) (by norm_num)

/-- C2 counterexample: with `C_height = 0` and `C_velocity = 180` (both in
`[0, 360)`) the produced phase difference is exactly -180, which does not
lie in the half-open interval `(-180, 180]`. -/
theorem canonical_range_counterexample :
    ((calculate_phase_difference [⟨11/2, 0, 0, 180⟩] (11/2)).map Prod.snd
        = [-180])
    ∧ ¬ ((-180 : ℚ) < -180)
    ∧ ((0 : ℚ) ∈ Set.Ico (0 : ℚ) 360 ∧ (180 : ℚ) ∈ Set.Ico (0 : ℚ) 360) := by
  refine ⟨?_, by norm_num, by norm_num, by norm_num⟩
  norm_num [calculate_phase_difference, List.insertionSort, List.orderedInsert,
    adjust_phase_differencehv, List.filter]

/-- C2 (amended): for every input table whose `C_height` and `C_velocity`
values lie in `[0, 360)`, every phase difference produced by
`calculate_phase_difference` lies in the closed interval `[-180, 180]`
(the value -180 is attainable, so the interval is closed on the left, not
open as claimed). -/
theorem canonical_range_amended (df : List Row) (Rsel : ℚ)
    (hC : ∀ r ∈ df, 0 ≤ r.C_height ∧ r.C_height < 360
        ∧ 0 ≤ r.C_velocity ∧ r.C_velocity < 360) :
    ∀ p ∈ calculate_phase_difference df Rsel, -180 ≤ p.2 ∧ p.2 ≤ 180 := by
  intro p hp
  unfold calculate_phase_difference at hp
  simp only [List.mem_map] at hp
  obtain ⟨r, hr, rfl⟩ := hp
  have hrdf : r ∈ df := by
    have h1 : r ∈ (df.filter (fun r => r.R = Rsel)) :=
      (List.mem_insertionSort tle).mp hr
    exact (List.mem_filter.mp h1).1
  obtain ⟨h1, h2, h3, h4⟩ := hC r hrdf
  exact adjust_phase_differencehv_bounds (by linarith) (by linarith)

/-- C2 witness: the amended theorem applied to a one-row table with
in-range phase shifts. -/
theorem canonical_range_amended_witness :
    -180 ≤ ((⟨5, 0, 10, 200⟩, (-190 + 360 : ℚ)) : Row × ℚ).2
    ∧ ((⟨5, 0, 10, 200⟩, (-190 + 360 : ℚ)) : Row × ℚ).2 ≤ 180 := by
  have h := canonical_range_amended [⟨5, 0, 10, 200⟩] 5
    (by intro r hr; simp only [List.mem_singleton] at hr; subst hr
        refine ⟨by norm_num, by norm_num, by norm_num, by norm_num⟩)
    (⟨5, 0, 10, 200⟩, -190 + 360)
  exact h (by norm_num [calculate_phase_difference, List.insertionSort,
    List.orderedInsert, adjust_phase_differencehv, List.filter])

/-- C3: the amplitude/phase normalizer returns `(|A|, (C + 180) mod 360)`
for negative amplitudes and `(A, C mod 360)` otherwise, with the phase
mapped into `[0, 360)`; in particular `normalize(-3, 10) = (3, 190)`. -/
theorem amplitude_phase_normalization :
    (∀ A C : ℚ, A < 0 → adjust_amplitude_phase A C = (|A|, qmod360 (C + 180)))
    ∧ (∀ A C : ℚ, 0 ≤ A → adjust_amplitude_phase A C = (A, qmod360 C))
    ∧ (∀ x : ℚ, 0 ≤ qmod360 x ∧ qmod360 x < 360)
    ∧ adjust_amplitude_phase (-3) 10 = (3, 190) := by
  refine ⟨?_, ?_, ?_, ?_⟩
  · intro A C h
    simp [adjust_amplitude_phase, h]
  · intro A C h
    simp [adjust_amplitude_phase, not_lt.mpr h, abs_of_nonneg h]
  · intro x
    exact ⟨qmod360_nonneg x, qmod360_lt x⟩
  · norm_num [adjust_amplitude_phase, qmod360]

/-- C3 witness: the theorem applied at concrete amplitudes and phases. -/
theorem amplitude_phase_normalization_witness :
    adjust_amplitude_phase (-3) 10 = (|(-3 : ℚ)|, qmod360 (10 + 180))
    ∧ adjust_amplitude_phase 7 370 = (7, qmod360 370) := by
  exact ⟨amplitude_phase_normalization.1 (-3) 10 (by norm_num),
    amplitude_phase_normalization.2.1 7 370 (by norm_num)⟩

/-- C4: the amplitude/phase normalizer is idempotent: applying it to its
own output returns that output unchanged. -/
theorem normalization_idempotent (A C : ℚ) :
    adjust_amplitude_phase (adjust_amplitude_phase A C).1
        (adjust_amplitude_phase A C).2
      = adjust_amplitude_phase A C := by
  unfold adjust_amplitude_phase
  have habs : ¬ |A| < 0 := not_lt.mpr (abs_nonneg A)
  by_cases h : A < 0 <;>
    simp [h, habs, abs_abs,
      qmod360_eq_self (qmod360_nonneg _) (qmod360_lt _)]

/-- C5: evaluation of the windowed-wrap pipeline at an input that exposes
the multi-pair bug.  With radii `[11/2, 13/2, 15/2]` the raw difference
table has four rows whose present values (-5, -5, -3, -5) all lie inside
the window `[-50, 50]` (so every sample is wrappable, as the two
`adjust_value` conjuncts witness), yet `adjust_phase_interval` returns no
rows at all: `pd.concat` pads each row with NaN in the other pair's
column, `adjust_value` maps NaN to `None`, and `dropna()` then removes
every row. -/
theorem windowed_wrap_multi_pair_bug :
    (calculate_differences
        [⟨11/2, 0, 10, 0⟩, ⟨11/2, 1, 20, 0⟩, ⟨13/2, 0, 15, 0⟩,
          ⟨13/2, 1, 25, 0⟩, ⟨15/2, 0, 18, 0⟩, ⟨15/2, 1, 30, 0⟩]
        [11/2, 13/2, 15/2] Metric.height).rows
      = [⟨0, [some (-5), none]⟩, ⟨1, [some (-5), none]⟩,
          ⟨0, [none, some (-3)]⟩, ⟨1, [none, some (-5)]⟩]
    ∧ adjust_value (-5) (-50) 50 = some (-5)
    ∧ adjust_value (-3) (-50) 50 = some (-3)
    ∧ (adjust_phase_interval
        (calculate_differences
          [⟨11/2, 0, 10, 0⟩, ⟨11/2, 1, 20, 0⟩, ⟨13/2, 0, 15, 0⟩,
            ⟨13/2, 1, 25, 0⟩, ⟨15/2, 0, 18, 0⟩, ⟨15/2, 1, 30, 0⟩]
          [11/2, 13/2, 15/2] Metric.height) (-50) 50).rows = [] := by
  have hrows : (calculate_differences
      [⟨11/2, 0, 10, 0⟩, ⟨11/2, 1, 20, 0⟩, ⟨13/2, 0, 15, 0⟩,
        ⟨13/2, 1, 25, 0⟩, ⟨15/2, 0, 18, 0⟩, ⟨15/2, 1, 30, 0⟩]
      [11/2, 13/2, 15/2] Metric.height).rows
      = [⟨0, [some (-5), none]⟩, ⟨1, [some (-5), none]⟩,
          ⟨0, [none, some (-3)]⟩, ⟨1, [none, some (-5)]⟩] := by
    norm_num [calculate_differences, pairsOf, pairRows, getC, padRow,
      List.filter, List.enum, List.enumFrom, List.flatMap, List.range,
      List.range.loop, List.isEmpty]
  refine ⟨hrows, ?_, ?_, ?_⟩
  · norm_num [adjust_value, addUp_of_lt, addUp_of_ge, subDown_of_gt,
      subDown_of_le]
  · norm_num [adjust_value, addUp_of_lt, addUp_of_ge, subDown_of_gt,
      subDown_of_le]
  · simp [adjust_phase_interval, hrows, List.filter, Option.bind]

/-- C6 counterexample: the source has no `InvalidWindowError` — with the
degenerate window `start = 10, end = 0` the windowed wrap silently drops
the value 5 (returns `None` rather than failing), and with the window
`start = end = 0` it even returns a value.  This refutes the claim that
every windowed wrap with `end ≤ start` fails with an error. -/
theorem degenerate_window_counterexample :
    adjust_value 5 10 0 = none ∧ adjust_value 0 0 0 = some 0 := by
  constructor <;>
    norm_num [adjust_value, addUp_of_lt, addUp_of_ge, subDown_of_gt,
      subDown_of_le]

/-- C6 (amended): for every value and every window with `end < start` the
windowed wrap silently returns no value (the record is dropped); no
`InvalidWindowError` or any other failure exists in the code, and a window
with `end = start` is not rejected either (it can return a value). -/
theorem degenerate_window_amended (value start_interval end_interval : ℚ)
    (h : end_interval < start_interval) :
    adjust_value value start_interval end_interval = none := by
  have h1 := (addUp_spec start_interval value).1
  have h2 := (subDown_spec end_interval (addUp start_interval value)).1
  unfold adjust_value
  rw [if_neg]
  rintro ⟨ha, hb⟩
  linarith

/-- C6 witness: the amended theorem applied to value 7 and the degenerate
window `[10, 0]`. -/
theorem degenerate_window_amended_witness :
    (0 : ℚ) < 10 ∧ adjust_value 7 10 0 = none :=
  ⟨by norm_num, degenerate_window_amended 7 10 0 (by norm_num)⟩

/-- C7: the precession-rate column is `(230 / R) - (A_velocity / A_height)`
for finite inputs with `R > 0` and `A_height ≠ 0`, computed independently
per row (the column map keeps every row and derives each Omega from that
row alone); at `R = 17/2`, `A_velocity = 46`, `A_height = 1/5` the result
is `-3450/17`, within 1/100 of -202.94. -/
theorem precession_rate_formula :
    (∀ R Av Ah : ℚ, 0 < R → Ah ≠ 0 →
        Omega_Warp (.fin R) (.fin Av) (.fin Ah) = .fin (230 / R - Av / Ah))
    ∧ (∀ df : List ORow, (addOmega df).map Prod.fst = df)
    ∧ (∀ df : List ORow, ∀ p ∈ addOmega df,
        p.2 = Omega_Warp (.fin p.1.R) (.fin p.1.A_velocity) (.fin p.1.A_height))
    ∧ Omega_Warp (.fin (17/2)) (.fin 46) (.fin (1/5)) = .fin (-3450/17)
    ∧ |(-3450/17 : ℚ) + 20294/100| < 1/100 := by
  refine ⟨?_, ?_, ?_, ?_, ?_⟩
  · intro R Av Ah hR hAh
    simp [Omega_Warp, QF.div, QF.sub, hR.ne', hAh]
  · intro df
    simp [addOmega, Function.comp_def]
  · intro df p hp
    simp only [addOmega, List.mem_map] at hp
    obtain ⟨r, _, rfl⟩ := hp
    rfl
  · norm_num [Omega_Warp, QF.div, QF.sub]
  · norm_num [abs_lt]

/-- C7 witness: the formula applied at the spec's concrete example, and
the per-row conjunct applied at a concrete one-row table. -/
theorem precession_rate_formula_witness :
    Omega_Warp (QF.fin (17/2)) (QF.fin 46) (QF.fin (1/5))
        = QF.fin (230 / (17/2) - 46 / (1/5))
    ∧ ((⟨17/2, 0, 1/5, 46⟩ : ORow),
        Omega_Warp (.fin (17/2)) (.fin 46) (.fin (1/5))).2
      = Omega_Warp (.fin (17/2)) (.fin 46) (.fin (1/5)) := by
  refine ⟨precession_rate_formula.1 (17/2) 46 (1/5) (by norm_num) (by norm_num),
    ?_⟩
  exact precession_rate_formula.2.2.1 [⟨17/2, 0, 1/5, 46⟩]
    (⟨17/2, 0, 1/5, 46⟩, Omega_Warp (.fin (17/2)) (.fin 46) (.fin (1/5)))
    (by simp [addOmega])

/-- C8 counterexample: on a table whose first row has normalized
`A_height = 0`, the `Omega_Warp` column computation does not fail and does
not omit that point — it produces a value for every row, with IEEE
negative infinity at the zero-amplitude row (pandas/numpy raise no
`DivisionByZeroError`). -/
theorem division_by_zero_counterexample :
    addOmega [⟨17/2, 0, 0, 46⟩, ⟨17/2, 1, 1/5, 46⟩]
      = [(⟨17/2, 0, 0, 46⟩, QF.ninf), (⟨17/2, 1, 1/5, 46⟩, QF.fin (-3450/17))] := by
  norm_num [addOmega, Omega_Warp, QF.div, QF.sub]

/-- C8 (amended): when the normalized `A_height` is 0 the computation
produces IEEE negative infinity for that row when `A_velocity > 0` (NaN
when `A_velocity` is also 0) instead of reporting an error, and the column
is computed for every row of the table (no point is omitted). -/
theorem division_by_zero_amended (R Av : ℚ) (hR : 0 < R) (hAv : 0 < Av) :
    Omega_Warp (.fin R) (.fin Av) (.fin 0) = QF.ninf
    ∧ Omega_Warp (.fin R) (.fin 0) (.fin 0) = QF.nan
    ∧ (∀ df : List ORow, (addOmega df).length = df.length) := by
  refine ⟨?_, ?_, fun df => by simp [addOmega]⟩
  · simp [Omega_Warp, QF.div, QF.sub, hR.ne', hAv.ne', hAv]
  · simp [Omega_Warp, QF.div, QF.sub, hR.ne']

/-- C8 witness: the amended theorem applied at `R = 1`, `A_velocity = 2`. -/
theorem division_by_zero_amended_witness :
    Omega_Warp (.fin 1) (.fin 2) (.fin 0) = QF.ninf
    ∧ Omega_Warp (.fin 1) (.fin 0) (.fin 0) = QF.nan
    ∧ (∀ df : List ORow, (addOmega df).length = df.length) :=
  division_by_zero_amended 1 2 (by norm_num) (by norm_num)

/-- Reducing an angle with `qmod360` inside the argument of the degree
sine leaves the sine unchanged (the reduction subtracts a whole number of
turns). -/
theorem sin_qmod (y x : ℚ) :
    Real.sin (((y + qmod360 x : ℚ) : ℝ) * Real.pi / 180)
      = Real.sin (((y + x : ℚ) : ℝ) * Real.pi / 180) := by
  obtain ⟨k, hk⟩ := qmod360_sub_int x
  rw [hk]
  rw [show (((y + (x - 360 * k) : ℚ) : ℝ) * Real.pi / 180)
      = ((y + x : ℚ) : ℝ) * Real.pi / 180 + (-k : ℤ) * (2 * Real.pi) from by
    push_cast; ring]
  rw [Real.sin_add_int_mul_two_pi]

/-- C9: amplitude/phase normalization preserves the represented sinusoid:
evaluating `sine_function` with the normalized parameters gives the same
real value as with the raw ones, for every angle, amplitude, phase and
offset. -/
theorem normalization_preserves_curve (phi A C D : ℚ) :
    sine_function phi (adjust_amplitude_phase A C).1
        (adjust_amplitude_phase A C).2 D
      = sine_function phi A C D := by
  unfold sine_function adjust_amplitude_phase
  by_cases h : A < 0
  · simp only [if_pos h]
    rw [sin_qmod phi (C + 180)]
    rw [show ((phi + (C + 180) : ℚ) : ℝ) * Real.pi / 180
        = ((phi + C : ℚ) : ℝ) * Real.pi / 180 + Real.pi from by push_cast; ring]
    rw [Real.sin_add_pi, abs_of_neg h]
    push_cast
    ring
  · simp only [if_neg h]
    rw [sin_qmod phi C, abs_of_nonneg (not_lt.mp h)]

/-- C10: whenever the windowed wrap returns a value for a window with
`start ≤ end`, the returned value differs from the input by an exact
integer multiple of 360 and lies in `[start, end]`. -/
theorem windowed_wrap_preserves_angle (value start_interval end_interval : ℚ)
    (_hw : start_interval ≤ end_interval) (w : ℚ)
    (h : adjust_value value start_interval end_interval = some w) :
    (∃ k : ℤ, w = value + 360 * k)
    ∧ start_interval ≤ w ∧ w ≤ end_interval := by
  unfold adjust_value at h
  by_cases hg : start_interval ≤ subDown end_interval (addUp start_interval value)
      ∧ subDown end_interval (addUp start_interval value) ≤ end_interval
  · rw [if_pos hg] at h
    obtain ⟨k1, hk1⟩ := (addUp_spec start_interval value).2
    obtain ⟨k2, hk2⟩ := (subDown_spec end_interval (addUp start_interval value)).2
    obtain rfl : w = subDown end_interval (addUp start_interval value) :=
      (Option.some_inj.mp h).symm
    refine ⟨⟨(k1 : ℤ) - k2, ?_⟩, hg.1, hg.2⟩
    rw [hk2, hk1]
    push_cast
    ring
  · rw [if_neg hg] at h
    exact absurd h (by simp)

/-- C10 witness: wrapping 370 into the window `[0, 50]` yields 10, one
full turn below the input and inside the window. -/
theorem windowed_wrap_preserves_angle_witness :
    (∃ k : ℤ, (10 : ℚ) = 370 + 360 * k) ∧ (0 : ℚ) ≤ 10 ∧ (10 : ℚ) ≤ 50 :=
  windowed_wrap_preserves_angle 370 0 50 (by norm_num) 10
    (by norm_num [adjust_value, addUp_of_lt, addUp_of_ge, subDown_of_gt,
      subDown_of_le])

end Milkyway

